import Mathlib

/-!
# link-crawl: the crawl engine of `src/crawler.js`

A shallow embedding of the class `WebsiteCrawler`.  The object's fields become a
record that is passed explicitly; every method becomes a function on that record.
The libraries the class calls (WHATWG `URL`, `fetch`, cheerio, robots-parser, the
CSV reader and the file system) are not part of the repository: what they return
is a parameter (`Env`, `FetchResult`).

An `async` method only gives up control at an `await`.  `crawlPage` is therefore
cut at its awaits into pieces that each run without interruption
(`crawlPageEnter`, `recordTargets`, `afterSave`, `enqueueLinks`); `crawlPage`
is one call run from start to end, and `step` interleaves the pieces of the calls
that `processQueue` starts together with `Promise.all`.  `runEvents` follows any
list of such steps; `processQueue` is the loop itself under one order of
settling, and every run of it is a run by such steps.

Numbers are integers: `depth`, `maxDepth` and `maxConcurrent` are of type `Int`.
-/

namespace LinkCrawl

/-! ## JavaScript values -/

/-- A JavaScript `Set`: its elements in insertion order, none of them twice. -/
structure JSSet (α : Type) [DecidableEq α] where
  elems : List α
  nodup : elems.Nodup

namespace JSSet

variable {α : Type} [DecidableEq α]

/-- The value of `new Set()`. -/
def empty : JSSet α := ⟨[], List.nodup_nil⟩

/-- The value of `s.has(x)`. -/
def has (s : JSSet α) (x : α) : Bool := decide (x ∈ s.elems)

/-- The set after `s.add(x)`. -/
def add (s : JSSet α) (x : α) : JSSet α :=
  if h : x ∈ s.elems then s
  else ⟨s.elems ++ [x], List.Nodup.append s.nodup (List.nodup_singleton x)
    (by
      intro a ha hb
      rw [List.mem_singleton] at hb
      exact h (hb ▸ ha))⟩

/-- The value of `s.size`. -/
def size (s : JSSet α) : Nat := s.elems.length

/-- The value of `new Set(xs)` for an array `xs`. -/
def ofArray (xs : List α) : JSSet α := xs.foldl add empty

/-- The value of `[...s]`. -/
def toArray (s : JSSet α) : List α := s.elems

end JSSet

/-- Truthiness of a value that is a string, `null` or `undefined`. -/
def truthy : Option String → Bool
  | some s => s != ""
  | none => false

/-! ## Data model -/

/-- What the class reads from a WHATWG `URL` object. -/
structure URL where
  /-- The value of `toString()`. -/
  href : String
  /-- The value of `hostname`. -/
  hostname : String
  /-- The value of `toString()` after `search = ''` and `hash = ''`. -/
  stripped : String
deriving DecidableEq, Repr

/-- An element of `this.queue`: `{ url, depth }`. -/
structure FrontierEntry where
  url : String
  depth : Int
deriving DecidableEq, Repr

/-- An element of `this.results`: `{ targetUrl, foundOn }`. -/
structure MatchRecord where
  targetUrl : Option String
  foundOn : String
deriving DecidableEq, Repr

/-- The object `saveState` writes and `loadState` reads back:
`{ visitedUrls, results, queue }`.  `JSON.stringify` followed by `JSON.parse` gives
back arrays of strings, integers and `null` unchanged, so the file content is
taken to be this record. -/
structure SavedState where
  visitedUrls : List String
  results : List MatchRecord
  queue : List FrontierEntry
deriving DecidableEq, Repr

/-- The argument of the constructor, `baseUrl` already parsed (`new URL(config.baseUrl)`
throws on a string that does not parse, and then there is no crawler). -/
structure Config where
  baseUrl : URL
  maxConcurrent : Option Int
  maxDepth : Option Int
  statesDir : Option String
  resultsDir : Option String

/-- What the world outside the class answers during one run of `start`. -/
structure Env where
  /-- The value of `new URL(x, this.baseUrl)`, `none` when the constructor throws. -/
  parseUrl : String → Option URL
  /-- The field `'Page URL'` of each record of `hreflang-errors.csv`. -/
  csvRecords : List (Option String)
  /-- The value of `this.robots` after `loadRobotsTxt`: `none` is `null`; the
  function is `robots.isAllowed(url, 'Crawler')`, `none` its `undefined`. -/
  robots : Option (String → Option Bool)
  /-- The state files when `loadState` runs: the content of the file at a path,
  `none` when reading or parsing it throws. -/
  files : String → Option SavedState

/-- The fields of a `WebsiteCrawler` object that the crawl reads or writes. -/
structure WebsiteCrawler where
  baseUrl : URL
  targetUrls : JSSet String
  visitedUrls : JSSet String
  results : List MatchRecord
  queue : List FrontierEntry
  maxConcurrent : Int
  maxDepth : Int
  statesDir : String
  resultsDir : String
  robots : Option (String → Option Bool)
  isCrawling : Bool
  foundUrls : JSSet (Option String)

/-- What `await fetch(normalizedUrl)` and the parsing after it give. -/
inductive FetchResult where
  /-- The call to `fetch`, `response.text()` or `cheerio.load` throws. -/
  | rejected
  /-- A response whose `ok` is false. -/
  | notOk
  /-- A response whose `ok` is true; `hrefs` is the `href` attribute of every
  `a` element in document order, `none` for an element without one. -/
  | page (hrefs : List (Option String))
deriving DecidableEq, Repr

/-! ## The methods of `WebsiteCrawler` -/

namespace WebsiteCrawler

/-- The constructor, lines 9-22. -/
def constructor (config : Config) : WebsiteCrawler where
  baseUrl := config.baseUrl
  targetUrls := JSSet.empty
  visitedUrls := JSSet.empty
  results := []
  queue := []
  maxConcurrent := config.maxConcurrent.getD 5
  maxDepth := config.maxDepth.getD 3
  statesDir := config.statesDir.getD "./states"
  resultsDir := config.resultsDir.getD "./results"
  robots := none
  isCrawling := false
  foundUrls := JSSet.empty

/-- The method `loadTargetUrls`, lines 57-67, on the records of the CSV file. -/
def loadTargetUrls (records : List (Option String)) (c : WebsiteCrawler) : WebsiteCrawler :=
  records.foldl
    (fun acc field =>
      match field with
      | some pageUrl =>
        if truthy (some pageUrl) then { acc with targetUrls := acc.targetUrls.add pageUrl }
        else acc
      | none => acc)
    c

/-- The method `loadRobotsTxt`, lines 69-81: `robots` is the parser's result, or
`null` when fetching or parsing throws. -/
def loadRobotsTxt (env : Env) (c : WebsiteCrawler) : WebsiteCrawler :=
  { c with robots := env.robots }

/-- The value of `s.replace(/[^a-zA-Z0-9]/g, '_')` for a string of ASCII characters,
which the serialisation of a URL is. -/
def safeUrl (s : String) : String :=
  String.mk (s.data.map fun ch => if ch.isAlphanum then ch else '_')

/-- The method `getStateFileName`, lines 51-55. -/
def getStateFileName (c : WebsiteCrawler) : String :=
  c.statesDir ++ "/" ++ safeUrl c.baseUrl.href ++ ".json"

/-- The method `loadState`, lines 83-97, reading from the files `files`. -/
def loadState (files : String → Option SavedState) (c : WebsiteCrawler) : WebsiteCrawler :=
  match files c.getStateFileName with
  | some state =>
    { c with
      visitedUrls := JSSet.ofArray state.visitedUrls
      results := state.results
      queue := state.queue }
  | none => c

/-- The object that `saveState` serialises, lines 101-105. -/
def stateObject (c : WebsiteCrawler) : SavedState where
  visitedUrls := c.visitedUrls.toArray
  results := c.results
  queue := c.queue

/-- The method `saveState`, lines 99-107: the files after the write. -/
def saveState (c : WebsiteCrawler) (files : String → Option SavedState) :
    String → Option SavedState :=
  fun path => if path = c.getStateFileName then some c.stateObject else files path

/-- The method `isAllowedToCrawl`, lines 109-112. -/
def isAllowedToCrawl (c : WebsiteCrawler) (url : String) : Option Bool :=
  match c.robots with
  | none => some true
  | some robots => robots url

/-- The method `normalizeUrl`, lines 114-124. -/
def normalizeUrl (env : Env) (url : String) : Option String :=
  match env.parseUrl url with
  | some normalized => some normalized.stripped
  | none => none

/-- The method `isSameDomain`, lines 126-133. -/
def isSameDomain (env : Env) (c : WebsiteCrawler) (url : String) : Bool :=
  match env.parseUrl url with
  | some urlObj => urlObj.hostname == c.baseUrl.hostname
  | none => false

/-- The method `allTargetsFound`, lines 141-143. -/
def allTargetsFound (c : WebsiteCrawler) : Bool :=
  c.foundUrls.size == c.targetUrls.size

/-- The value of `this.targetUrls.has(v)` for `v` a string or `null`: the set holds
strings only. -/
def targetUrlsHas (c : WebsiteCrawler) (v : Option String) : Bool :=
  match v with
  | some u => c.targetUrls.has u
  | none => false

/-- The method `initialize`, lines 24-49, without the directories and the CSV
writer. -/
def initializeCrawler (env : Env) (c : WebsiteCrawler) : WebsiteCrawler :=
  loadState env.files (loadRobotsTxt env (loadTargetUrls env.csvRecords c))

/-- Lines 145-167 of `crawlPage`: everything before `await fetch`.  The second
component is the URL that is fetched, `none` when the call returns before. -/
def crawlPageEnter (env : Env) (url : String) (depth : Int) (c : WebsiteCrawler) :
    WebsiteCrawler × Option String :=
  if depth > c.maxDepth then (c, none)
  else if c.allTargetsFound then (c, none)
  else
    match normalizeUrl env url with
    | none => (c, none)
    | some normalizedUrl =>
      if !truthy (some normalizedUrl) then (c, none)
      else if c.visitedUrls.has normalizedUrl then (c, none)
      else ({ c with visitedUrls := c.visitedUrls.add normalizedUrl }, some normalizedUrl)

/-- One call of the callback of lines 183-196; the number is `foundTargets`. -/
def recordTarget (env : Env) (normalizedUrl : String) (acc : WebsiteCrawler × Nat)
    (href : Option String) : WebsiteCrawler × Nat :=
  if !truthy href then acc
  else
    let absoluteUrl := normalizeUrl env (href.getD "")
    if acc.1.targetUrlsHas absoluteUrl && !acc.1.foundUrls.has absoluteUrl then
      ({ acc.1 with
          foundUrls := acc.1.foundUrls.add absoluteUrl
          results := acc.1.results ++ [{ targetUrl := absoluteUrl, foundOn := normalizedUrl }] },
        acc.2 + 1)
    else acc

/-- Lines 181-196: the loop over the `a` elements that records the targets. -/
def recordTargets (env : Env) (normalizedUrl : String) (hrefs : List (Option String))
    (c : WebsiteCrawler) : WebsiteCrawler × Nat :=
  hrefs.foldl (recordTarget env normalizedUrl) (c, 0)

/-- One call of the callback of lines 212-226. -/
def enqueueLink (env : Env) (depth : Int) (c : WebsiteCrawler) (href : Option String) :
    WebsiteCrawler :=
  if !truthy href then c
  else
    match normalizeUrl env (href.getD "") with
    | none => c
    | some absoluteUrl =>
      if truthy (some absoluteUrl) && c.isSameDomain env absoluteUrl
          && !c.visitedUrls.has absoluteUrl && (c.isAllowedToCrawl absoluteUrl == some true) then
        { c with queue := c.queue ++ [{ url := absoluteUrl, depth := depth + 1 }] }
      else c

/-- Lines 209-227: the guarded loop that adds the new URLs to the queue. -/
def enqueueLinks (env : Env) (depth : Int) (hrefs : List (Option String))
    (c : WebsiteCrawler) : WebsiteCrawler :=
  if depth < c.maxDepth && !c.allTargetsFound then hrefs.foldl (enqueueLink env depth) c
  else c

/-- Lines 203-227: what runs once `saveResults` and `saveState` have returned. -/
def afterSave (env : Env) (depth : Int) (hrefs : List (Option String))
    (c : WebsiteCrawler) : WebsiteCrawler :=
  if c.allTargetsFound then c else enqueueLinks env depth hrefs c

/-- Lines 169-234, the `try` block, once the fetch has settled with `r`; `saveOk`
says whether `saveResults` and `saveState` return (they are only called after a
new match).  The second component is the exception the block throws, if any. -/
def crawlPageTry (env : Env) (normalizedUrl : String) (depth : Int) (r : FetchResult)
    (saveOk : Bool) (c : WebsiteCrawler) : WebsiteCrawler × Option String :=
  match r with
  | .rejected => (c, some "fetch failed")
  | .notOk => (c, none)
  | .page hrefs =>
    let found := recordTargets env normalizedUrl hrefs c
    if found.2 > 0 then
      if saveOk then (afterSave env depth hrefs found.1, none)
      else (found.1, some "write failed")
    else (enqueueLinks env depth hrefs found.1, none)

/-- The method `crawlPage`, lines 145-238, as one call run from start to end.
The `catch` of lines 235-237 only logs, so the second component, the exception
that reaches the caller, is always `none`. -/
def crawlPage (env : Env) (url : String) (depth : Int) (r : FetchResult) (saveOk : Bool)
    (c : WebsiteCrawler) : WebsiteCrawler × Option String :=
  match crawlPageEnter env url depth c with
  | (c1, none) => (c1, none)
  | (c1, some normalizedUrl) =>
    match crawlPageTry env normalizedUrl depth r saveOk c1 with
    | (c2, _) => (c2, none)

/-- Lines 258-261 of `start`: the base URL is queued when the queue is empty. -/
def seed (c : WebsiteCrawler) : WebsiteCrawler :=
  if c.queue.length = 0 then { c with queue := c.queue ++ [{ url := c.baseUrl.href, depth := 0 }] }
  else c

end WebsiteCrawler

/-! ## `start` and `processQueue` -/

/-- A call of `crawlPage` that waits at an `await`; `inBatch` says that
`processQueue` started it (line 245) and waits for it with `Promise.all`. -/
inductive Pending where
  /-- At line 170 or 178: the fetch of `normalizedUrl` has not settled. -/
  | fetching (inBatch : Bool) (normalizedUrl : String) (depth : Int)
  /-- At line 200 or 201, after a new match on a page with the links `hrefs`. -/
  | saving (inBatch : Bool) (normalizedUrl : String) (depth : Int)
      (hrefs : List (Option String))
deriving DecidableEq, Repr

/-- Whether `processQueue` waits for the call. -/
def Pending.inBatch : Pending → Bool
  | .fetching inBatch _ _ => inBatch
  | .saving inBatch _ _ _ => inBatch

/-- The crawler together with the calls of `crawlPage` in flight and the list of
the URLs passed to `fetch` so far, oldest first. -/
structure Run where
  crawler : WebsiteCrawler
  pending : List Pending
  fetched : List String

/-- What can happen next during a run. -/
inductive Event where
  /-- The loop of `processQueue`, lines 241-246, tests its condition and starts the
  next batch; this only happens once every call of the batch before has returned. -/
  | nextBatch
  /-- Some caller other than `processQueue` starts `crawlPage(url, depth)`. -/
  | call (url : String) (depth : Int)
  /-- The fetch of the `i`-th waiting call settles with `r`. -/
  | fetchSettled (i : Nat) (r : FetchResult)
  /-- The writes of the `i`-th waiting call settle; `saveOk` is false when one throws. -/
  | saveSettled (i : Nat) (saveOk : Bool)
deriving DecidableEq, Repr

open WebsiteCrawler

/-- A call `crawlPage(url, depth)` starts and runs up to its first `await`. -/
def startCall (env : Env) (inBatch : Bool) (run : Run) (e : FrontierEntry) : Run :=
  match crawlPageEnter env e.url e.depth run.crawler with
  | (c, none) => { run with crawler := c }
  | (c, some normalizedUrl) =>
    { crawler := c
      pending := run.pending ++ [.fetching inBatch normalizedUrl e.depth]
      fetched := run.fetched ++ [normalizedUrl] }

/-- One turn of the loop of `processQueue`, lines 241-245, up to the first `await`
of every call it starts: `splice(0, maxConcurrent)` takes the batch off the queue,
`batch.map` starts the calls in order. -/
def nextBatch (env : Env) (run : Run) : Run :=
  if run.pending.all (fun p => !p.inBatch) && decide (run.crawler.queue.length > 0)
      && !run.crawler.allTargetsFound then
    let batch := run.crawler.queue.take run.crawler.maxConcurrent.toNat
    let rest := run.crawler.queue.drop run.crawler.maxConcurrent.toNat
    batch.foldl (startCall env true) { run with crawler := { run.crawler with queue := rest } }
  else run

/-- The call waiting for its fetch at position `i` goes on with the result `r`,
up to its next `await` or its end (lines 170-227). -/
def fetchSettled (env : Env) (run : Run) (i : Nat) (r : FetchResult) : Run :=
  match run.pending.get? i with
  | some (.fetching inBatch normalizedUrl depth) =>
    match r with
    | .rejected => { run with pending := run.pending.eraseIdx i }
    | .notOk => { run with pending := run.pending.eraseIdx i }
    | .page hrefs =>
      let found := recordTargets env normalizedUrl hrefs run.crawler
      if found.2 > 0 then
        { run with
          crawler := found.1
          pending := run.pending.set i (.saving inBatch normalizedUrl depth hrefs) }
      else
        { run with
          crawler := enqueueLinks env depth hrefs found.1
          pending := run.pending.eraseIdx i }
  | _ => run

/-- The call waiting for its writes at position `i` goes on to its end
(lines 203-227), or to the `catch` when a write threw. -/
def saveSettled (env : Env) (run : Run) (i : Nat) (saveOk : Bool) : Run :=
  match run.pending.get? i with
  | some (.saving _ _ depth hrefs) =>
    if saveOk then
      { run with
        crawler := afterSave env depth hrefs run.crawler
        pending := run.pending.eraseIdx i }
    else { run with pending := run.pending.eraseIdx i }
  | _ => run

/-- The effect of one event. -/
def step (env : Env) (run : Run) : Event → Run
  | .nextBatch => nextBatch env run
  | .call url depth => startCall env false run { url := url, depth := depth }
  | .fetchSettled i r => fetchSettled env run i r
  | .saveSettled i saveOk => saveSettled env run i saveOk

/-- The method `start` on a new crawler, lines 250-263, up to the call of
`processQueue`. -/
def start (env : Env) (config : Config) : Run where
  crawler := seed (initializeCrawler env { constructor config with isCrawling := true })
  pending := []
  fetched := []

/-- The run after the events `events`, oldest first. -/
def runEvents (env : Env) (events : List Event) (run : Run) : Run :=
  events.foldl (step env) run

/-- The waiting calls go on one after the other, the oldest first, each to its
end: `fetch` is what the fetch of a URL gives, `saveOk` whether the writes after a
match on the page of a URL return.  A call needs at most two turns. -/
def settleAll (env : Env) (fetch : String → FetchResult) (saveOk : String → Bool) :
    Nat → Run → Run
  | 0, run => run
  | turns + 1, run =>
    match run.pending with
    | [] => run
    | .fetching _ normalizedUrl _ :: _ =>
      settleAll env fetch saveOk turns (fetchSettled env run 0 (fetch normalizedUrl))
    | .saving _ normalizedUrl _ _ :: _ =>
      settleAll env fetch saveOk turns (saveSettled env run 0 (saveOk normalizedUrl))

/-- The method `processQueue`, lines 240-248, with the calls of a batch settling in
the order in which they were started; the loop is cut off after `fuel` turns (it
does not end when `maxConcurrent` is 0).  The write of line 246 changes nothing
of the crawler. -/
def processQueue (env : Env) (fetch : String → FetchResult) (saveOk : String → Bool) :
    Nat → Run → Run
  | 0, run => run
  | fuel + 1, run =>
    if decide (run.crawler.queue.length > 0) && !run.crawler.allTargetsFound then
      let started := nextBatch env run
      processQueue env fetch saveOk fuel
        (settleAll env fetch saveOk (2 * started.pending.length) started)
    else run

end LinkCrawl

/-! ## Properties of a crawler state -/

namespace LinkCrawl

open WebsiteCrawler

/-- Every element of `foundUrls` is a string that is a member of `targetUrls`. -/
def FoundSubset (c : WebsiteCrawler) : Prop :=
  ∀ v ∈ c.foundUrls.elems, ∃ u, v = some u ∧ u ∈ c.targetUrls.elems

/-- The `targetUrl` fields of `results`, in order, are the elements of `foundUrls`. -/
def ResultsTracked (c : WebsiteCrawler) : Prop :=
  c.results.map MatchRecord.targetUrl = c.foundUrls.elems

/-- The fetched URLs are pairwise different, all in `visitedUrls`, none of them in
`restored`; and `visitedUrls` still holds every element of `restored`. -/
def FetchedOnce (restored : List String) (run : Run) : Prop :=
  run.fetched.Nodup ∧
  (∀ u ∈ run.fetched, u ∈ run.crawler.visitedUrls.elems) ∧
  (∀ u ∈ run.fetched, u ∉ restored) ∧
  (∀ u ∈ restored, u ∈ run.crawler.visitedUrls.elems)

/-- The crawler `c'` is `c` after the part of a call of `crawlPage` for the page
`n` at depth `depth` that follows the fetch: some targets `us` of `targetUrls`, not
found before, are appended to `foundUrls` and `results`; some entries `added`, each
at depth `depth + 1` and having passed the three checks of lines 218-221, are
appended to the queue, and none unless `depth < maxDepth` and not all targets are
found; nothing else changes. -/
def PageEffect (env : Env) (n : String) (depth : Int) (c c' : WebsiteCrawler) : Prop :=
  ∃ (us : List String) (F : JSSet (Option String)) (added : List FrontierEntry),
    F.elems = c.foundUrls.elems ++ us.map some ∧
    (∀ u ∈ us, u ∈ c.targetUrls.elems) ∧
    (added ≠ [] → depth < c.maxDepth ∧ F.size ≠ c.targetUrls.size) ∧
    (∀ e ∈ added, e.depth = depth + 1 ∧ c.isSameDomain env e.url = true ∧
      e.url ∉ c.visitedUrls.elems ∧ c.isAllowedToCrawl e.url = some true) ∧
    c' = { c with
      foundUrls := F
      results := c.results ++ us.map fun u => { targetUrl := some u, foundOn := n }
      queue := c.queue ++ added }

end LinkCrawl

namespace LinkCrawl

open WebsiteCrawler

/-- The array `visitedUrls` of the state file that `start` finds, empty when it
finds none. -/
def restoredVisited (env : Env) (config : Config) : List String :=
  match env.files (constructor config).getStateFileName with
  | some state => state.visitedUrls
  | none => []

end LinkCrawl

/-! ## Concrete runs on `https://example.com/` -/

namespace LinkCrawl

open WebsiteCrawler

/-- The URL object of `https://example.com` followed by `path`, a path without
query and fragment. -/
def exampleUrl (path : String) : URL where
  href := "https://example.com" ++ path
  hostname := "example.com"
  stripped := "https://example.com" ++ path

/-- The value of `new URL(x, 'https://example.com/')` for the strings that occur
in the runs below; no other string is asked for. -/
def exampleParse (x : String) : Option URL :=
  if x = "/" ∨ x = "https://example.com/" then some (exampleUrl "/")
  else if x = "/a" ∨ x = "https://example.com/a" then some (exampleUrl "/a")
  else if x = "/b" ∨ x = "https://example.com/b" then some (exampleUrl "/b")
  else if x = "/private/page" ∨ x = "https://example.com/private/page" then
    some (exampleUrl "/private/page")
  else none

/-- The configuration `{ baseUrl: 'https://example.com/' }` with `maxDepth` as given. -/
def exampleConfig (maxDepth : Option Int) : Config where
  baseUrl := exampleUrl "/"
  maxConcurrent := none
  maxDepth := maxDepth
  statesDir := none
  resultsDir := none

/-- A first run: the CSV file lists the targets `targets`, there is no robots.txt
and no state file. -/
def freshEnv (targets : List String) : Env where
  parseUrl := exampleParse
  csvRecords := targets.map some
  robots := none
  files := fun _ => none

/-- A first run whose only target is `/a`. -/
def oneTargetEnv : Env := freshEnv ["https://example.com/a"]

/-- The crawler of that run when `processQueue` is called: the seed is queued. -/
def oneTargetStart : WebsiteCrawler := (start oneTargetEnv (exampleConfig none)).crawler

/-- The scenario of the single target `/a`: the seed page links to `/a` and `/b`. -/
def oneTargetRun : Run :=
  runEvents oneTargetEnv
    [.nextBatch, .fetchSettled 0 (.page [some "/a", some "/b"]), .saveSettled 0 true]
    (start oneTargetEnv (exampleConfig none))

/-- A first run with the targets `/a` and `/c`, stopped after its first batch: the
seed page links to `/a` and `/b`. -/
def interruptedRun : Run :=
  runEvents (freshEnv ["https://example.com/a", "https://example.com/c"])
    [.nextBatch, .fetchSettled 0 (.page [some "/a", some "/b"]), .saveSettled 0 true]
    (start (freshEnv ["https://example.com/a", "https://example.com/c"]) (exampleConfig none))

/-- The second run finds the state file that the first run wrote at the end of its
batch (line 246). -/
def resumeEnv : Env where
  parseUrl := exampleParse
  csvRecords := [some "https://example.com/a", some "https://example.com/c"]
  robots := none
  files := interruptedRun.crawler.saveState fun _ => none

/-- The second run: the batch holds `/a` and `/b`, and the page `/b` links to `/a`. -/
def resumedRun : Run :=
  runEvents resumeEnv [.nextBatch, .fetchSettled 1 (.page [some "/a"])]
    (start resumeEnv (exampleConfig none))

/-- A robots.txt that disallows every path, and the state file of a finished
crawl: the base URL visited, the queue empty. -/
def closedEnv : Env where
  parseUrl := exampleParse
  csvRecords := [some "https://example.com/a"]
  robots := some fun _ => some false
  files := fun _ =>
    some { visitedUrls := ["https://example.com/"], results := [], queue := [] }

/-- The crawler under a robots.txt that disallows every path, restored from the
state file of a finished crawl, when `processQueue` is called. -/
def closedStart : WebsiteCrawler := (start closedEnv (exampleConfig none)).crawler

/-- A first run under a robots.txt that disallows `/private/`: of the URLs that
occur, `isAllowed` is false for `/private/page` only. -/
def privateEnv : Env where
  parseUrl := exampleParse
  csvRecords := [some "https://example.com/private/page", some "https://example.com/c"]
  robots := some fun url => some (decide (url ≠ "https://example.com/private/page"))
  files := fun _ => none

/-- The crawler of that run when `processQueue` is called. -/
def privateStart : WebsiteCrawler := (start privateEnv (exampleConfig none)).crawler

end LinkCrawl

/-! ## Lemmas on `JSSet` -/

namespace LinkCrawl

namespace JSSet

variable {α : Type} [DecidableEq α]

theorem ext_elems {s t : JSSet α} (h : s.elems = t.elems) : s = t := by
  cases s; cases t; cases h; rfl

theorem has_iff (s : JSSet α) (x : α) : s.has x = true ↔ x ∈ s.elems := by
  simp [has]

theorem has_false_iff (s : JSSet α) (x : α) : s.has x = false ↔ x ∉ s.elems := by
  simp [has]

theorem add_of_mem {s : JSSet α} {x : α} (h : x ∈ s.elems) : s.add x = s := by
  simp [add, h]

theorem elems_add_of_not_mem {s : JSSet α} {x : α} (h : x ∉ s.elems) :
    (s.add x).elems = s.elems ++ [x] := by
  simp [add, h]

theorem mem_add (s : JSSet α) (x y : α) : y ∈ (s.add x).elems ↔ y ∈ s.elems ∨ y = x := by
  by_cases h : x ∈ s.elems
  · rw [add_of_mem h]
    constructor
    · exact Or.inl
    · rintro (h1 | rfl)
      · exact h1
      · exact h
  · rw [elems_add_of_not_mem h]
    simp

theorem mem_add_self (s : JSSet α) (x : α) : x ∈ (s.add x).elems :=
  (mem_add s x x).2 (Or.inr rfl)

theorem mem_add_of_mem {s : JSSet α} {y : α} (x : α) (h : y ∈ s.elems) :
    y ∈ (s.add x).elems :=
  (mem_add s x y).2 (Or.inl h)

theorem foldl_add_elems (l : List α) (s : JSSet α) (h : (s.elems ++ l).Nodup) :
    (l.foldl add s).elems = s.elems ++ l := by
  induction l generalizing s with
  | nil => simp
  | cons x xs ih =>
    have hx : x ∉ s.elems := by
      intro hmem
      have := List.disjoint_of_nodup_append h
      exact this hmem (List.mem_cons_self x xs)
    have h1 : (s.add x).elems = s.elems ++ [x] := elems_add_of_not_mem hx
    simp only [List.foldl_cons]
    rw [ih (s.add x) (by rw [h1]; simpa using h), h1]
    simp

theorem mem_foldl_add (l : List α) (s : JSSet α) (y : α) :
    y ∈ (l.foldl add s).elems ↔ y ∈ s.elems ∨ y ∈ l := by
  induction l generalizing s with
  | nil => simp
  | cons x xs ih =>
    simp only [List.foldl_cons, ih, mem_add, List.mem_cons]
    tauto

theorem mem_ofArray (l : List α) (y : α) : y ∈ (ofArray l).elems ↔ y ∈ l := by
  simp [ofArray, mem_foldl_add, empty]

theorem ofArray_toArray (s : JSSet α) : ofArray s.toArray = s := by
  apply ext_elems
  have := foldl_add_elems s.elems (empty : JSSet α) (by simpa [empty] using s.nodup)
  simpa [ofArray, toArray, empty] using this

end JSSet

end LinkCrawl

/-! ## What each piece of `crawlPage` does to the crawler -/

namespace LinkCrawl

namespace WebsiteCrawler

theorem crawlPageEnter_cases (env : Env) (url : String) (depth : Int) (c : WebsiteCrawler) :
    crawlPageEnter env url depth c = (c, none) ∨
    ∃ n, normalizeUrl env url = some n ∧ n ≠ "" ∧ depth ≤ c.maxDepth ∧
      c.allTargetsFound = false ∧ n ∉ c.visitedUrls.elems ∧
      crawlPageEnter env url depth c =
        ({ c with visitedUrls := c.visitedUrls.add n }, some n) := by
  unfold crawlPageEnter
  by_cases hd : depth > c.maxDepth
  · simp [hd]
  by_cases hf : c.allTargetsFound = true
  · simp [hd, hf]
  cases hn : normalizeUrl env url with
  | none => simp [hd, hf]
  | some n =>
    by_cases he : n = ""
    · simp [hd, hf, truthy, he]
    by_cases hv : n ∈ c.visitedUrls.elems
    · simp [hd, hf, truthy, he, JSSet.has, hv]
    · right
      refine ⟨n, rfl, he, not_lt.mp hd, by simpa using hf, hv, ?_⟩
      simp [hd, hf, truthy, he, JSSet.has, hv]

theorem crawlPageEnter_of_visited {env : Env} {url : String} {n : String} (depth : Int)
    {c : WebsiteCrawler} (hn : normalizeUrl env url = some n)
    (hv : n ∈ c.visitedUrls.elems) : crawlPageEnter env url depth c = (c, none) := by
  rcases crawlPageEnter_cases env url depth c with h | ⟨m, hm, _, _, _, hnot, _⟩
  · exact h
  · rw [hn] at hm
    cases hm
    exact absurd hv hnot

theorem crawlPageEnter_of_skip {env : Env} {url : String} {depth : Int}
    {c : WebsiteCrawler} (h : depth > c.maxDepth ∨ c.allTargetsFound = true) :
    crawlPageEnter env url depth c = (c, none) := by
  rcases crawlPageEnter_cases env url depth c with h1 | ⟨m, _, _, hd, hf, _, _⟩
  · exact h1
  · rcases h with h | h
    · exact absurd hd (not_le.mpr h)
    · rw [hf] at h
      cases h

theorem recordTarget_cases (env : Env) (n : String) (acc : WebsiteCrawler × Nat)
    (href : Option String) :
    recordTarget env n acc href = acc ∨
    ∃ u, u ∈ acc.1.targetUrls.elems ∧ some u ∉ acc.1.foundUrls.elems ∧
      recordTarget env n acc href =
        ({ acc.1 with
            foundUrls := acc.1.foundUrls.add (some u)
            results := acc.1.results ++ [{ targetUrl := some u, foundOn := n }] },
          acc.2 + 1) := by
  unfold recordTarget
  by_cases ht : truthy href = true
  · cases hn : normalizeUrl env (href.getD "") with
    | none => simp [ht, targetUrlsHas]
    | some u =>
      by_cases h1 : u ∈ acc.1.targetUrls.elems
      · by_cases h2 : some u ∈ acc.1.foundUrls.elems
        · simp [ht, targetUrlsHas, JSSet.has, h1, h2]
        · right
          exact ⟨u, h1, h2, by simp [ht, targetUrlsHas, JSSet.has, h1, h2]⟩
      · simp [ht, targetUrlsHas, JSSet.has, h1]
  · simp [ht]

/-- The loop of lines 183-196 appends the new targets `us`, each a member of
`targetUrls` and not found before, to `foundUrls` and, paired with the page, to
`results`; it touches nothing else and counts them. -/
theorem foldl_recordTarget_form (env : Env) (n : String) (hrefs : List (Option String))
    (acc : WebsiteCrawler × Nat) :
    ∃ (us : List String) (F : JSSet (Option String)),
      F.elems = acc.1.foundUrls.elems ++ us.map some ∧
      (∀ u ∈ us, u ∈ acc.1.targetUrls.elems) ∧
      hrefs.foldl (recordTarget env n) acc =
        ({ acc.1 with
            foundUrls := F
            results := acc.1.results ++ us.map fun u => { targetUrl := some u, foundOn := n } },
          acc.2 + us.length) := by
  induction hrefs generalizing acc with
  | nil => exact ⟨[], acc.1.foundUrls, by simp, by simp, by simp⟩
  | cons href rest ih =>
    simp only [List.foldl_cons]
    rcases recordTarget_cases env n acc href with h | ⟨u, hu, hnot, h⟩
    · rw [h]
      exact ih acc
    · rw [h]
      obtain ⟨us, F, hF, hmem, heq⟩ := ih
        ({ acc.1 with
            foundUrls := acc.1.foundUrls.add (some u)
            results := acc.1.results ++ [{ targetUrl := some u, foundOn := n }] },
          acc.2 + 1)
      refine ⟨u :: us, F, ?_, ?_, ?_⟩
      · rw [hF]
        simp [JSSet.elems_add_of_not_mem hnot]
      · intro v hv
        rcases List.mem_cons.mp hv with rfl | hv
        · exact hu
        · exact hmem v hv
      · rw [heq]
        simp [Nat.add_comm, Nat.add_left_comm]

theorem recordTargets_form (env : Env) (n : String) (hrefs : List (Option String))
    (c : WebsiteCrawler) :
    ∃ (us : List String) (F : JSSet (Option String)),
      F.elems = c.foundUrls.elems ++ us.map some ∧
      (∀ u ∈ us, u ∈ c.targetUrls.elems) ∧
      recordTargets env n hrefs c =
        ({ c with
            foundUrls := F
            results := c.results ++ us.map fun u => { targetUrl := some u, foundOn := n } },
          us.length) := by
  obtain ⟨us, F, hF, hmem, heq⟩ := foldl_recordTarget_form env n hrefs (c, 0)
  exact ⟨us, F, hF, hmem, by simpa [recordTargets] using heq⟩

theorem recordTargets_eq_of_count_zero {env : Env} {n : String} {hrefs : List (Option String)}
    {c : WebsiteCrawler} (h : (recordTargets env n hrefs c).2 = 0) :
    (recordTargets env n hrefs c).1 = c := by
  obtain ⟨us, F, hF, _, heq⟩ := recordTargets_form env n hrefs c
  rw [heq] at h ⊢
  have hus : us = [] := List.length_eq_zero.mp h
  subst hus
  have hFc : F = c.foundUrls := JSSet.ext_elems (by simpa using hF)
  subst hFc
  simp

theorem enqueueLink_cases (env : Env) (depth : Int) (c : WebsiteCrawler)
    (href : Option String) :
    enqueueLink env depth c href = c ∨
    ∃ a, c.isSameDomain env a = true ∧ a ∉ c.visitedUrls.elems ∧
      c.isAllowedToCrawl a = some true ∧
      enqueueLink env depth c href =
        { c with queue := c.queue ++ [{ url := a, depth := depth + 1 }] } := by
  unfold enqueueLink
  by_cases ht : truthy href = true
  · cases hn : normalizeUrl env (href.getD "") with
    | none => simp [ht]
    | some a =>
      by_cases hc : (truthy (some a) && c.isSameDomain env a
          && !c.visitedUrls.has a && (c.isAllowedToCrawl a == some true)) = true
      · right
        refine ⟨a, ?_, ?_, ?_, ?_⟩
        · simp only [Bool.and_eq_true] at hc
          exact hc.1.1.2
        · simp only [Bool.and_eq_true, Bool.not_eq_true', JSSet.has_false_iff] at hc
          exact hc.1.2
        · simp only [Bool.and_eq_true, beq_iff_eq] at hc
          exact hc.2
        · simp only [ht, Bool.not_true, Bool.false_eq_true, ↓reduceIte, hc]
      · left
        simp only [ht, Bool.not_true, Bool.false_eq_true, ↓reduceIte, hc]
  · simp [ht]

/-- The loop of lines 212-226 appends entries to the queue and touches nothing
else; every entry it appends has depth `depth + 1` and passed the three checks. -/
theorem foldl_enqueueLink_form (env : Env) (depth : Int) (hrefs : List (Option String))
    (c : WebsiteCrawler) :
    ∃ added : List FrontierEntry,
      (∀ e ∈ added, e.depth = depth + 1 ∧ c.isSameDomain env e.url = true ∧
        e.url ∉ c.visitedUrls.elems ∧ c.isAllowedToCrawl e.url = some true) ∧
      hrefs.foldl (enqueueLink env depth) c = { c with queue := c.queue ++ added } := by
  induction hrefs generalizing c with
  | nil => exact ⟨[], by simp, by simp⟩
  | cons href rest ih =>
    simp only [List.foldl_cons]
    rcases enqueueLink_cases env depth c href with h | ⟨a, h1, h2, h3, h⟩
    · rw [h]
      exact ih c
    · rw [h]
      obtain ⟨added, hprop, heq⟩ :=
        ih { c with queue := c.queue ++ [{ url := a, depth := depth + 1 }] }
      refine ⟨{ url := a, depth := depth + 1 } :: added, ?_, ?_⟩
      · intro e he
        rcases List.mem_cons.mp he with rfl | he
        · exact ⟨rfl, h1, h2, h3⟩
        · exact hprop e he
      · rw [heq]
        simp

theorem enqueueLinks_form (env : Env) (depth : Int) (hrefs : List (Option String))
    (c : WebsiteCrawler) :
    ∃ added : List FrontierEntry,
      (added ≠ [] → depth < c.maxDepth ∧ c.allTargetsFound = false) ∧
      (∀ e ∈ added, e.depth = depth + 1 ∧ c.isSameDomain env e.url = true ∧
        e.url ∉ c.visitedUrls.elems ∧ c.isAllowedToCrawl e.url = some true) ∧
      enqueueLinks env depth hrefs c = { c with queue := c.queue ++ added } := by
  unfold enqueueLinks
  by_cases hg : (decide (depth < c.maxDepth) && !c.allTargetsFound) = true
  · obtain ⟨added, hprop, heq⟩ := foldl_enqueueLink_form env depth hrefs c
    refine ⟨added, fun _ => ?_, hprop, by simp only [hg, ↓reduceIte, heq]⟩
    simpa using hg
  · exact ⟨[], by simp, by simp, by simp only [hg]; simp⟩

theorem afterSave_form (env : Env) (depth : Int) (hrefs : List (Option String))
    (c : WebsiteCrawler) :
    ∃ added : List FrontierEntry,
      (added ≠ [] → depth < c.maxDepth ∧ c.allTargetsFound = false) ∧
      (∀ e ∈ added, e.depth = depth + 1 ∧ c.isSameDomain env e.url = true ∧
        e.url ∉ c.visitedUrls.elems ∧ c.isAllowedToCrawl e.url = some true) ∧
      afterSave env depth hrefs c = { c with queue := c.queue ++ added } := by
  unfold afterSave
  by_cases hf : c.allTargetsFound = true
  · exact ⟨[], by simp, by simp, by simp [hf]⟩
  · simpa [hf] using enqueueLinks_form env depth hrefs c

end WebsiteCrawler

end LinkCrawl

/-! ## The effect of a call after its fetch -/

namespace LinkCrawl

open WebsiteCrawler

theorem PageEffect.refl (env : Env) (n : String) (depth : Int) (c : WebsiteCrawler) :
    PageEffect env n depth c c :=
  ⟨[], c.foundUrls, [], by simp, by simp, by simp, by simp, by simp⟩

theorem PageEffect.of_record {env : Env} {n : String} (depth : Int) (hrefs : List (Option String))
    (c : WebsiteCrawler) : PageEffect env n depth c (recordTargets env n hrefs c).1 := by
  obtain ⟨us, F, hF, hmem, heq⟩ := recordTargets_form env n hrefs c
  exact ⟨us, F, [], hF, hmem, by simp, by simp, by rw [heq]; simp⟩

theorem PageEffect.of_record_enqueue {env : Env} {n : String} (depth : Int)
    (hrefs : List (Option String)) (c : WebsiteCrawler) :
    PageEffect env n depth c (enqueueLinks env depth hrefs (recordTargets env n hrefs c).1) := by
  obtain ⟨us, F, hF, hmem, heq⟩ := recordTargets_form env n hrefs c
  obtain ⟨added, hguard, hprop, hq⟩ :=
    enqueueLinks_form env depth hrefs (recordTargets env n hrefs c).1
  rw [heq] at hguard hprop hq
  refine ⟨us, F, added, hF, hmem, ?_, ?_, ?_⟩
  · intro hne
    have := hguard hne
    simpa [allTargetsFound] using this
  · intro e he
    simpa [isSameDomain, isAllowedToCrawl] using hprop e he
  · rw [heq, hq]

theorem PageEffect.of_enqueue {env : Env} (n : String) (depth : Int)
    (hrefs : List (Option String)) (c : WebsiteCrawler) :
    PageEffect env n depth c (enqueueLinks env depth hrefs c) := by
  obtain ⟨added, hguard, hprop, hq⟩ := enqueueLinks_form env depth hrefs c
  refine ⟨[], c.foundUrls, added, by simp, by simp, ?_, hprop, by rw [hq]; simp⟩
  intro hne
  simpa [allTargetsFound] using hguard hne

theorem PageEffect.of_afterSave {env : Env} (n : String) (depth : Int)
    (hrefs : List (Option String)) (c : WebsiteCrawler) :
    PageEffect env n depth c (afterSave env depth hrefs c) := by
  unfold afterSave
  split
  · exact PageEffect.refl env n depth c
  · exact PageEffect.of_enqueue n depth hrefs c

theorem PageEffect.of_record_afterSave {env : Env} {n : String} (depth : Int)
    (hrefs : List (Option String)) (c : WebsiteCrawler) :
    PageEffect env n depth c (afterSave env depth hrefs (recordTargets env n hrefs c).1) := by
  unfold afterSave
  split
  · exact PageEffect.of_record depth hrefs c
  · exact PageEffect.of_record_enqueue depth hrefs c

/-- The `try` block of `crawlPage` has the effect `PageEffect`, whatever the fetch
and the writes do. -/
theorem crawlPageTry_effect (env : Env) (n : String) (depth : Int) (r : FetchResult)
    (saveOk : Bool) (c : WebsiteCrawler) :
    PageEffect env n depth c (crawlPageTry env n depth r saveOk c).1 := by
  unfold crawlPageTry
  cases r with
  | rejected => exact PageEffect.refl env n depth c
  | notOk => exact PageEffect.refl env n depth c
  | page hrefs =>
    simp only
    split
    · split
      · exact PageEffect.of_record_afterSave depth hrefs c
      · exact PageEffect.of_record depth hrefs c
    · exact PageEffect.of_record_enqueue depth hrefs c

theorem PageEffect.visitedUrls {env : Env} {n : String} {depth : Int} {c c' : WebsiteCrawler}
    (h : PageEffect env n depth c c') : c'.visitedUrls = c.visitedUrls := by
  obtain ⟨us, F, added, _, _, _, _, rfl⟩ := h
  rfl

theorem PageEffect.targetUrls {env : Env} {n : String} {depth : Int} {c c' : WebsiteCrawler}
    (h : PageEffect env n depth c c') : c'.targetUrls = c.targetUrls := by
  obtain ⟨us, F, added, _, _, _, _, rfl⟩ := h
  rfl

theorem PageEffect.maxDepth {env : Env} {n : String} {depth : Int} {c c' : WebsiteCrawler}
    (h : PageEffect env n depth c c') : c'.maxDepth = c.maxDepth := by
  obtain ⟨us, F, added, _, _, _, _, rfl⟩ := h
  rfl

theorem PageEffect.foundSubset {env : Env} {n : String} {depth : Int} {c c' : WebsiteCrawler}
    (h : PageEffect env n depth c c') (hc : FoundSubset c) : FoundSubset c' := by
  obtain ⟨us, F, added, hF, hmem, _, _, rfl⟩ := h
  intro v hv
  simp only [hF, List.mem_append, List.mem_map] at hv
  rcases hv with hv | ⟨u, hu, rfl⟩
  · exact hc v hv
  · exact ⟨u, rfl, hmem u hu⟩

theorem PageEffect.resultsTracked {env : Env} {n : String} {depth : Int}
    {c c' : WebsiteCrawler} (h : PageEffect env n depth c c') (hc : ResultsTracked c) :
    ResultsTracked c' := by
  obtain ⟨us, F, added, hF, _, _, _, rfl⟩ := h
  unfold ResultsTracked at hc ⊢
  simp only [List.map_append, List.map_map, hF, hc]
  congr 1

end LinkCrawl

/-! ## Steps of a run -/

namespace LinkCrawl

open WebsiteCrawler

theorem startCall_cases (env : Env) (b : Bool) (run : Run) (e : FrontierEntry) :
    startCall env b run e = run ∨
    ∃ n, normalizeUrl env e.url = some n ∧ n ≠ "" ∧ e.depth ≤ run.crawler.maxDepth ∧
      run.crawler.allTargetsFound = false ∧ n ∉ run.crawler.visitedUrls.elems ∧
      startCall env b run e =
        { crawler := { run.crawler with visitedUrls := run.crawler.visitedUrls.add n }
          pending := run.pending ++ [.fetching b n e.depth]
          fetched := run.fetched ++ [n] } := by
  unfold startCall
  rcases crawlPageEnter_cases env e.url e.depth run.crawler with h | ⟨n, h1, h2, h3, h4, h5, h⟩
  · left
    rw [h]
  · right
    exact ⟨n, h1, h2, h3, h4, h5, by rw [h]⟩

/-- Starting a call changes nothing of the crawler but `visitedUrls`, which can
only grow. -/
theorem startCall_crawler (env : Env) (b : Bool) (run : Run) (e : FrontierEntry) :
    ∃ V : JSSet String, (∀ u ∈ run.crawler.visitedUrls.elems, u ∈ V.elems) ∧
      (startCall env b run e).crawler = { run.crawler with visitedUrls := V } := by
  rcases startCall_cases env _ run e with h | ⟨n, _, _, _, _, _, h⟩
  · exact ⟨run.crawler.visitedUrls, fun _ hu => hu, by rw [h]⟩
  · exact ⟨run.crawler.visitedUrls.add n, fun _ hu => JSSet.mem_add_of_mem n hu, by rw [h]⟩

theorem foldl_startCall_crawler (env : Env) (b : Bool) (batch : List FrontierEntry) (run : Run) :
    ∃ V : JSSet String, (∀ u ∈ run.crawler.visitedUrls.elems, u ∈ V.elems) ∧
      (batch.foldl (startCall env b) run).crawler = { run.crawler with visitedUrls := V } := by
  induction batch generalizing run with
  | nil => exact ⟨run.crawler.visitedUrls, fun _ hu => hu, rfl⟩
  | cons e rest ih =>
    simp only [List.foldl_cons]
    obtain ⟨V1, hmono1, h1⟩ := startCall_crawler env _ run e
    obtain ⟨V2, hmono2, h2⟩ := ih (startCall env b run e)
    refine ⟨V2, fun u hu => hmono2 u ?_, ?_⟩
    · rw [h1]
      exact hmono1 u hu
    · rw [h2, h1]

theorem nextBatch_cases (env : Env) (run : Run) :
    nextBatch env run = run ∨
    (run.pending.all (fun p => !p.inBatch) = true ∧ run.crawler.queue ≠ [] ∧
      run.crawler.allTargetsFound = false ∧
      nextBatch env run =
        (run.crawler.queue.take run.crawler.maxConcurrent.toNat).foldl (startCall env true)
          { run with
            crawler :=
              { run.crawler with
                queue := run.crawler.queue.drop run.crawler.maxConcurrent.toNat } }) := by
  unfold nextBatch
  by_cases hg : (run.pending.all (fun p => !p.inBatch) && decide (run.crawler.queue.length > 0)
      && !run.crawler.allTargetsFound) = true
  · right
    simp only [hg, ↓reduceIte, and_true]
    simp only [Bool.and_eq_true, decide_eq_true_eq, Bool.not_eq_true', List.length_pos] at hg
    exact ⟨hg.1.1, hg.1.2, hg.2⟩
  · left
    simp only [hg]
    simp

/-- A batch changes the queue to what `splice` leaves and lets `visitedUrls`
grow; nothing else of the crawler changes. -/
theorem nextBatch_crawler (env : Env) (run : Run) :
    ∃ (V : JSSet String) (k : Nat), (∀ u ∈ run.crawler.visitedUrls.elems, u ∈ V.elems) ∧
      (nextBatch env run).crawler =
        { run.crawler with visitedUrls := V, queue := run.crawler.queue.drop k } := by
  rcases nextBatch_cases env run with h | ⟨_, _, _, h⟩
  · exact ⟨run.crawler.visitedUrls, 0, fun _ hu => hu, by rw [h]; simp⟩
  · obtain ⟨V, hmono, hV⟩ := foldl_startCall_crawler env true
      (run.crawler.queue.take run.crawler.maxConcurrent.toNat)
      { run with
        crawler :=
          { run.crawler with
            queue := run.crawler.queue.drop run.crawler.maxConcurrent.toNat } }
    exact ⟨V, run.crawler.maxConcurrent.toNat, hmono, by rw [h, hV]⟩

theorem fetchSettled_effect (env : Env) (run : Run) (i : Nat) (r : FetchResult) :
    (fetchSettled env run i r).fetched = run.fetched ∧
    ∃ n depth, PageEffect env n depth run.crawler (fetchSettled env run i r).crawler := by
  unfold fetchSettled
  split
  · rename_i b n depth _
    cases r with
    | rejected => exact ⟨rfl, n, depth, PageEffect.refl env n depth _⟩
    | notOk => exact ⟨rfl, n, depth, PageEffect.refl env n depth _⟩
    | page hrefs =>
      simp only
      split
      · exact ⟨rfl, n, depth, PageEffect.of_record depth hrefs _⟩
      · exact ⟨rfl, n, depth, PageEffect.of_record_enqueue depth hrefs _⟩
  · exact ⟨rfl, "", 0, PageEffect.refl env "" 0 _⟩

theorem saveSettled_effect (env : Env) (run : Run) (i : Nat) (saveOk : Bool) :
    (saveSettled env run i saveOk).fetched = run.fetched ∧
    ∃ n depth, PageEffect env n depth run.crawler (saveSettled env run i saveOk).crawler := by
  unfold saveSettled
  split
  · rename_i b n depth hrefs _
    split
    · exact ⟨rfl, n, depth, PageEffect.of_afterSave n depth hrefs _⟩
    · exact ⟨rfl, n, depth, PageEffect.refl env n depth _⟩
  · exact ⟨rfl, "", 0, PageEffect.refl env "" 0 _⟩

/-! ### Invariants of a step -/

theorem step_foundSubset (env : Env) (run : Run) (ev : Event)
    (h : FoundSubset run.crawler) : FoundSubset (step env run ev).crawler := by
  cases ev with
  | nextBatch =>
    obtain ⟨V, k, _, hc⟩ := nextBatch_crawler env run
    simp only [step, hc]
    exact h
  | call url depth =>
    obtain ⟨V, _, hc⟩ := startCall_crawler env false run { url := url, depth := depth }
    simp only [step, hc]
    exact h
  | fetchSettled i r =>
    obtain ⟨_, n, depth, he⟩ := fetchSettled_effect env run i r
    exact he.foundSubset h
  | saveSettled i saveOk =>
    obtain ⟨_, n, depth, he⟩ := saveSettled_effect env run i saveOk
    exact he.foundSubset h

theorem step_resultsTracked (env : Env) (run : Run) (ev : Event)
    (h : ResultsTracked run.crawler) : ResultsTracked (step env run ev).crawler := by
  cases ev with
  | nextBatch =>
    obtain ⟨V, k, _, hc⟩ := nextBatch_crawler env run
    simp only [step, hc]
    exact h
  | call url depth =>
    obtain ⟨V, _, hc⟩ := startCall_crawler env false run { url := url, depth := depth }
    simp only [step, hc]
    exact h
  | fetchSettled i r =>
    obtain ⟨_, n, depth, he⟩ := fetchSettled_effect env run i r
    exact he.resultsTracked h
  | saveSettled i saveOk =>
    obtain ⟨_, n, depth, he⟩ := saveSettled_effect env run i saveOk
    exact he.resultsTracked h

theorem step_maxDepth (env : Env) (run : Run) (ev : Event) :
    (step env run ev).crawler.maxDepth = run.crawler.maxDepth := by
  cases ev with
  | nextBatch =>
    obtain ⟨V, k, _, hc⟩ := nextBatch_crawler env run
    simp only [step, hc]
  | call url depth =>
    obtain ⟨V, _, hc⟩ := startCall_crawler env false run { url := url, depth := depth }
    simp only [step, hc]
  | fetchSettled i r =>
    obtain ⟨_, n, depth, he⟩ := fetchSettled_effect env run i r
    exact he.maxDepth
  | saveSettled i saveOk =>
    obtain ⟨_, n, depth, he⟩ := saveSettled_effect env run i saveOk
    exact he.maxDepth

theorem startCall_fetchedOnce (env : Env) (b : Bool) (restored : List String) (run : Run)
    (e : FrontierEntry) (h : FetchedOnce restored run) :
    FetchedOnce restored (startCall env b run e) := by
  rcases startCall_cases env _ run e with hs | ⟨n, _, _, _, _, hnot, hs⟩
  · rw [hs]
    exact h
  · rw [hs]
    obtain ⟨hnodup, hvis, hres, hkeep⟩ := h
    refine ⟨?_, ?_, ?_, ?_⟩
    · refine List.Nodup.append hnodup (List.nodup_singleton n) ?_
      intro a ha hb
      rw [List.mem_singleton] at hb
      subst hb
      exact hnot (hvis a ha)
    · intro u hu
      rcases List.mem_append.mp hu with hu | hu
      · exact JSSet.mem_add_of_mem n (hvis u hu)
      · rw [List.mem_singleton] at hu
        subst hu
        exact JSSet.mem_add_self _ u
    · intro u hu
      rcases List.mem_append.mp hu with hu | hu
      · exact hres u hu
      · rw [List.mem_singleton] at hu
        subst hu
        exact fun hin => hnot (hkeep u hin)
    · intro u hu
      exact JSSet.mem_add_of_mem n (hkeep u hu)

theorem foldl_startCall_fetchedOnce (env : Env) (b : Bool) (restored : List String)
    (batch : List FrontierEntry) (run : Run) (h : FetchedOnce restored run) :
    FetchedOnce restored (batch.foldl (startCall env b) run) := by
  induction batch generalizing run with
  | nil => exact h
  | cons e rest ih => exact ih _ (startCall_fetchedOnce env _ restored run e h)

theorem step_fetchedOnce (env : Env) (restored : List String) (run : Run) (ev : Event)
    (h : FetchedOnce restored run) : FetchedOnce restored (step env run ev) := by
  cases ev with
  | nextBatch =>
    rcases nextBatch_cases env run with hs | ⟨_, _, _, hs⟩
    · simp only [step, hs]
      exact h
    · simp only [step, hs]
      exact foldl_startCall_fetchedOnce env true restored _ _ h
  | call url depth => exact startCall_fetchedOnce env _ restored run _ h
  | fetchSettled i r =>
    obtain ⟨hf, n, depth, he⟩ := fetchSettled_effect env run i r
    unfold FetchedOnce
    simp only [step, hf, he.visitedUrls]
    exact h
  | saveSettled i saveOk =>
    obtain ⟨hf, n, depth, he⟩ := saveSettled_effect env run i saveOk
    unfold FetchedOnce
    simp only [step, hf, he.visitedUrls]
    exact h

/-- A property of runs that every step keeps holds after any list of events. -/
theorem runEvents_induction (env : Env) (P : Run → Prop)
    (hstep : ∀ run ev, P run → P (step env run ev)) (events : List Event) (run : Run)
    (h : P run) : P (runEvents env events run) := by
  unfold runEvents
  induction events generalizing run with
  | nil => exact h
  | cons ev rest ih => exact ih _ (hstep run ev h)

end LinkCrawl

namespace LinkCrawl

open WebsiteCrawler

theorem runEvents_append (env : Env) (events more : List Event) (run : Run) :
    runEvents env (events ++ more) run = runEvents env more (runEvents env events run) := by
  simp [runEvents, List.foldl_append]

theorem settleAll_eq_runEvents (env : Env) (fetch : String → FetchResult)
    (saveOk : String → Bool) (turns : Nat) (run : Run) :
    ∃ events : List Event, settleAll env fetch saveOk turns run = runEvents env events run := by
  induction turns generalizing run with
  | zero => exact ⟨[], rfl⟩
  | succ turns ih =>
    unfold settleAll
    split
    · exact ⟨[], rfl⟩
    · rename_i b n d rest _
      obtain ⟨events, h⟩ := ih (fetchSettled env run 0 (fetch n))
      exact ⟨.fetchSettled 0 (fetch n) :: events, by rw [h]; rfl⟩
    · rename_i b n d hrefs rest _
      obtain ⟨events, h⟩ := ih (saveSettled env run 0 (saveOk n))
      exact ⟨.saveSettled 0 (saveOk n) :: events, by rw [h]; rfl⟩

/-- A run of `processQueue` is a run by events: what holds after every list of
events holds after `processQueue`. -/
theorem processQueue_eq_runEvents (env : Env) (fetch : String → FetchResult)
    (saveOk : String → Bool) (fuel : Nat) (run : Run) :
    ∃ events : List Event,
      processQueue env fetch saveOk fuel run = runEvents env events run := by
  induction fuel generalizing run with
  | zero => exact ⟨[], rfl⟩
  | succ fuel ih =>
    unfold processQueue
    split
    · obtain ⟨settle, h1⟩ := settleAll_eq_runEvents env fetch saveOk
        (2 * (nextBatch env run).pending.length) (nextBatch env run)
      obtain ⟨later, h2⟩ := ih
        (settleAll env fetch saveOk (2 * (nextBatch env run).pending.length) (nextBatch env run))
      refine ⟨.nextBatch :: (settle ++ later), ?_⟩
      simp only at h2 ⊢
      rw [h2, h1, ← runEvents_append]
      rfl
    · exact ⟨[], rfl⟩

end LinkCrawl

/-! ## The state in which `processQueue` starts -/

namespace LinkCrawl

open WebsiteCrawler

theorem loadTargetUrls_form (records : List (Option String)) (c : WebsiteCrawler) :
    ∃ T : JSSet String, loadTargetUrls records c = { c with targetUrls := T } := by
  unfold loadTargetUrls
  induction records generalizing c with
  | nil => exact ⟨c.targetUrls, rfl⟩
  | cons field rest ih =>
    simp only [List.foldl_cons]
    cases field with
    | none => exact ih c
    | some pageUrl =>
      simp only
      split
      · obtain ⟨T, hT⟩ := ih { c with targetUrls := c.targetUrls.add pageUrl }
        exact ⟨T, by rw [hT]⟩
      · exact ih c

/-- Before the state file is read the crawler differs from the new one in
`targetUrls` and `robots` only. -/
theorem beforeLoadState_form (env : Env) (c : WebsiteCrawler) :
    ∃ T : JSSet String,
      loadRobotsTxt env (loadTargetUrls env.csvRecords c) =
        { c with targetUrls := T, robots := env.robots } := by
  obtain ⟨T, hT⟩ := loadTargetUrls_form env.csvRecords c
  exact ⟨T, by rw [hT]; rfl⟩

theorem loadState_of_none {files : String → Option SavedState} {c : WebsiteCrawler}
    (h : files c.getStateFileName = none) : loadState files c = c := by
  simp [loadState, h]

theorem loadState_of_some {files : String → Option SavedState} {c : WebsiteCrawler}
    {state : SavedState} (h : files c.getStateFileName = some state) :
    loadState files c =
      { c with
        visitedUrls := JSSet.ofArray state.visitedUrls
        results := state.results
        queue := state.queue } := by
  simp [loadState, h]

theorem loadState_frame (files : String → Option SavedState) (c : WebsiteCrawler) :
    (loadState files c).foundUrls = c.foundUrls ∧
    (loadState files c).targetUrls = c.targetUrls ∧
    (loadState files c).maxDepth = c.maxDepth ∧
    (loadState files c).baseUrl = c.baseUrl := by
  unfold loadState
  split <;> exact ⟨rfl, rfl, rfl, rfl⟩

theorem seed_frame (c : WebsiteCrawler) :
    (seed c).foundUrls = c.foundUrls ∧ (seed c).targetUrls = c.targetUrls ∧
    (seed c).maxDepth = c.maxDepth ∧ (seed c).visitedUrls = c.visitedUrls ∧
    (seed c).results = c.results := by
  unfold seed
  split <;> exact ⟨rfl, rfl, rfl, rfl, rfl⟩

theorem seed_of_empty {c : WebsiteCrawler} (h : c.queue = []) :
    (seed c).queue = [{ url := c.baseUrl.href, depth := 0 }] := by
  simp [seed, h]

theorem start_foundUrls (env : Env) (config : Config) :
    (start env config).crawler.foundUrls = JSSet.empty := by
  obtain ⟨T, hT⟩ := beforeLoadState_form env { constructor config with isCrawling := true }
  simp only [start, initializeCrawler, (seed_frame _).1, (loadState_frame _ _).1, hT]
  rfl

theorem start_visitedUrls (env : Env) (config : Config) :
    (start env config).crawler.visitedUrls = JSSet.ofArray (restoredVisited env config) := by
  obtain ⟨T, hT⟩ := beforeLoadState_form env { constructor config with isCrawling := true }
  simp only [start, initializeCrawler, (seed_frame _).2.2.2.1, hT, restoredVisited]
  cases h : env.files (constructor config).getStateFileName with
  | none => rw [loadState_of_none (by exact h)]; rfl
  | some state => rw [loadState_of_some (by exact h)]

/-- Without a state file the crawl starts with the base URL at depth 0 as the only
entry of the queue and with no results. -/
theorem start_fresh (env : Env) (config : Config)
    (hfresh : env.files (constructor config).getStateFileName = none) :
    (start env config).crawler.queue = [{ url := config.baseUrl.href, depth := 0 }] ∧
    (start env config).crawler.results = [] := by
  obtain ⟨T, hT⟩ := beforeLoadState_form env { constructor config with isCrawling := true }
  simp only [start, initializeCrawler, (seed_frame _).2.2.2.2, hT]
  rw [loadState_of_none (by exact hfresh)]
  exact ⟨seed_of_empty rfl, rfl⟩

theorem start_fetchedOnce (env : Env) (config : Config) :
    FetchedOnce (restoredVisited env config) (start env config) := by
  refine ⟨?_, ?_, ?_, ?_⟩
  · simp [start]
  · simp [start]
  · simp [start]
  · intro u hu
    rw [start_visitedUrls]
    exact (JSSet.mem_ofArray _ u).2 hu

end LinkCrawl

/-! ## Whole calls, finished runs and the growth of `visitedUrls` -/

namespace LinkCrawl

open WebsiteCrawler

/-- A call of `crawlPage` run from start to end either returns at once, leaving
the crawler as it is, or marks the normalised URL visited and then has the effect
`PageEffect`; it never throws. -/
theorem crawlPage_cases (env : Env) (url : String) (depth : Int) (r : FetchResult)
    (saveOk : Bool) (c : WebsiteCrawler) :
    crawlPage env url depth r saveOk c = (c, none) ∨
    ∃ n, normalizeUrl env url = some n ∧ n ≠ "" ∧ depth ≤ c.maxDepth ∧
      c.allTargetsFound = false ∧ n ∉ c.visitedUrls.elems ∧
      (crawlPage env url depth r saveOk c).2 = none ∧
      PageEffect env n depth { c with visitedUrls := c.visitedUrls.add n }
        (crawlPage env url depth r saveOk c).1 := by
  unfold crawlPage
  rcases crawlPageEnter_cases env url depth c with h | ⟨n, h1, h2, h3, h4, h5, h⟩
  · left
    rw [h]
  · right
    refine ⟨n, h1, h2, h3, h4, h5, ?_, ?_⟩
    · rw [h]
    · rw [h]
      exact crawlPageTry_effect env n depth r saveOk _

theorem crawlPageEnter_marks {env : Env} {url : String} {depth : Int} {c : WebsiteCrawler}
    {u : String} (hn : normalizeUrl env url = some u) (hne : u ≠ "")
    (hd : depth ≤ c.maxDepth) (hf : c.allTargetsFound = false) :
    u ∈ (crawlPageEnter env url depth c).1.visitedUrls.elems := by
  by_cases hv : u ∈ c.visitedUrls.elems
  · rw [crawlPageEnter_of_visited depth hn hv]
    exact hv
  · have hd' : ¬ depth > c.maxDepth := not_lt.mpr hd
    have hcall : crawlPageEnter env url depth c
        = ({ c with visitedUrls := c.visitedUrls.add u }, some u) := by
      unfold crawlPageEnter
      simp [hd', hf, hn, truthy, hne, JSSet.has, hv]
    rw [hcall]
    exact JSSet.mem_add_self c.visitedUrls u

theorem startCall_marks {env : Env} {b : Bool} {run : Run} {e : FrontierEntry} {u : String}
    (hn : normalizeUrl env e.url = some u) (hne : u ≠ "")
    (hd : e.depth ≤ run.crawler.maxDepth) (hf : run.crawler.allTargetsFound = false) :
    u ∈ (startCall env b run e).crawler.visitedUrls.elems := by
  have h := crawlPageEnter_marks hn hne hd hf
  unfold startCall
  split
  · rename_i c heq
    rw [heq] at h
    exact h
  · rename_i c m heq
    rw [heq] at h
    exact h

/-- Every entry of a batch that is not deeper than `maxDepth` has its normalised
URL in `visitedUrls` once the calls of the batch have started. -/
theorem foldl_startCall_marks (env : Env) (b : Bool) (batch : List FrontierEntry) (run : Run)
    (hf : run.crawler.allTargetsFound = false) (e : FrontierEntry) (he : e ∈ batch)
    (u : String) (hn : normalizeUrl env e.url = some u) (hne : u ≠ "")
    (hd : e.depth ≤ run.crawler.maxDepth) :
    u ∈ (batch.foldl (startCall env b) run).crawler.visitedUrls.elems := by
  induction batch generalizing run with
  | nil => cases he
  | cons e0 rest ih =>
    simp only [List.foldl_cons]
    obtain ⟨V1, _, h1⟩ := startCall_crawler env _ run e0
    rcases List.mem_cons.mp he with rfl | hrest
    · obtain ⟨V2, hmono2, h2⟩ := foldl_startCall_crawler env b rest (startCall env b run e)
      rw [h2]
      exact hmono2 u (startCall_marks hn hne hd hf)
    · refine ih (startCall env b run e0) ?_ hrest ?_
      · rw [h1]
        exact hf
      · rw [h1]
        exact hd

theorem step_visited_mono (env : Env) (run : Run) (ev : Event) (u : String)
    (h : u ∈ run.crawler.visitedUrls.elems) :
    u ∈ (step env run ev).crawler.visitedUrls.elems := by
  cases ev with
  | nextBatch =>
    obtain ⟨V, k, hmono, hc⟩ := nextBatch_crawler env run
    simp only [step, hc]
    exact hmono u h
  | call url depth =>
    obtain ⟨V, hmono, hc⟩ := startCall_crawler env false run { url := url, depth := depth }
    simp only [step, hc]
    exact hmono u h
  | fetchSettled i r =>
    obtain ⟨_, n, depth, he⟩ := fetchSettled_effect env run i r
    simp only [step, he.visitedUrls]
    exact h
  | saveSettled i saveOk =>
    obtain ⟨_, n, depth, he⟩ := saveSettled_effect env run i saveOk
    simp only [step, he.visitedUrls]
    exact h

end LinkCrawl

namespace LinkCrawl

open WebsiteCrawler

theorem crawlPage_visitedUrls (env : Env) (url : String) (depth : Int) (r : FetchResult)
    (saveOk : Bool) (c : WebsiteCrawler) :
    (crawlPage env url depth r saveOk c).1.visitedUrls
      = (crawlPageEnter env url depth c).1.visitedUrls := by
  rcases crawlPage_cases env url depth r saveOk c with h | ⟨n, hn, hne, hd, hf, hv, _, he⟩
  · rcases crawlPageEnter_cases env url depth c with h1 | ⟨m, _, _, _, _, _, h1⟩
    · rw [h, h1]
    · unfold crawlPage at h ⊢
      rw [h1] at h ⊢
      exact (crawlPageTry_effect env m depth r saveOk _).visitedUrls
  · rw [he.visitedUrls]
    rcases crawlPageEnter_cases env url depth c with h1 | ⟨m, hm, _, _, _, _, h1⟩
    · exfalso
      have := crawlPageEnter_marks hn hne hd hf
      rw [h1] at this
      exact hv this
    · rw [h1]
      rw [hn] at hm
      cases hm
      rfl

/-- The entries that the effect of a call appends to the queue, seen from the
crawler after the call. -/
theorem PageEffect.enqueued {env : Env} {n : String} {depth : Int} {c c' : WebsiteCrawler}
    (h : PageEffect env n depth c c') :
    ∃ added : List FrontierEntry, c'.queue = c.queue ++ added ∧
      ∀ e ∈ added, c'.isSameDomain env e.url = true ∧ c'.isAllowedToCrawl e.url = some true ∧
        c'.visitedUrls.has e.url = false ∧ e.depth = depth + 1 := by
  obtain ⟨us, F, added, _, _, _, hprop, rfl⟩ := h
  refine ⟨added, rfl, fun e he => ?_⟩
  obtain ⟨h1, h2, h3, h4⟩ := hprop e he
  exact ⟨h2, h4, (JSSet.has_false_iff _ _).2 h3, h1⟩

end LinkCrawl

/-! ## The properties of the specification -/

namespace LinkCrawl

open WebsiteCrawler

/-! ### C2: `foundUrls` stays inside `targetUrls` -/

/-- C2. In every state that a run of `start` reaches, by any events (batches of
`processQueue`, calls of `crawlPage`, fetches and writes settling in any order
and with any page content), every element of `foundUrls` is a string, not `null`,
and a member of `targetUrls`; so it is after `processQueue`, whatever the pages
hold and however long it runs. -/
theorem foundUrls_subset_targetUrls (env : Env) (config : Config) :
    (∀ (events : List Event),
      ∀ v ∈ (runEvents env events (start env config)).crawler.foundUrls.elems,
        ∃ u, v = some u ∧
          u ∈ (runEvents env events (start env config)).crawler.targetUrls.elems) ∧
    (∀ (fetch : String → FetchResult) (saveOk : String → Bool) (fuel : Nat),
      ∀ v ∈ (processQueue env fetch saveOk fuel (start env config)).crawler.foundUrls.elems,
        ∃ u, v = some u ∧
          u ∈ (processQueue env fetch saveOk fuel
            (start env config)).crawler.targetUrls.elems) := by
  have h0 : FoundSubset (start env config).crawler := by
    intro v hv
    rw [start_foundUrls] at hv
    simp [JSSet.empty] at hv
  have hrun : ∀ events : List Event,
      FoundSubset (runEvents env events (start env config)).crawler := fun events =>
    runEvents_induction env (fun run => FoundSubset run.crawler)
      (fun run ev h => step_foundSubset env run ev h) events _ h0
  refine ⟨hrun, fun fetch saveOk fuel => ?_⟩
  obtain ⟨events, h⟩ := processQueue_eq_runEvents env fetch saveOk fuel (start env config)
  rw [h]
  exact hrun events

/-- C2 at the interrupted run on example.com: the one found URL is the target `/a`. -/
theorem foundUrls_subset_targetUrls_witness :
    some "https://example.com/a" ∈ interruptedRun.crawler.foundUrls.elems ∧
    ∃ u, some "https://example.com/a" = some u ∧ u ∈ interruptedRun.crawler.targetUrls.elems :=
  ⟨by decide,
    (foundUrls_subset_targetUrls (freshEnv ["https://example.com/a", "https://example.com/c"])
      (exampleConfig none)).1
      [.nextBatch, .fetchSettled 0 (.page [some "/a", some "/b"]), .saveSettled 0 true]
      (some "https://example.com/a") (by decide)⟩

/-! ### C9: the termination predicate -/

/-- C9. In a state where every element of `foundUrls` is a member of `targetUrls`,
`allTargetsFound()` is true exactly when every target is in `foundUrls`; and the
two sizes are equal exactly when the two sets have the same members. -/
theorem allTargetsFound_iff_every_target_found (c : WebsiteCrawler)
    (hsub : ∀ v ∈ c.foundUrls.elems, ∃ u, v = some u ∧ u ∈ c.targetUrls.elems) :
    (c.allTargetsFound = true ↔ ∀ t ∈ c.targetUrls.elems, some t ∈ c.foundUrls.elems) ∧
    (c.foundUrls.size = c.targetUrls.size ↔
      ∀ v, v ∈ c.foundUrls.elems ↔ ∃ t ∈ c.targetUrls.elems, v = some t) := by
  have hnd : (c.targetUrls.elems.map some).Nodup :=
    c.targetUrls.nodup.map (Option.some_injective String)
  have hsub' : c.foundUrls.elems ⊆ c.targetUrls.elems.map some := by
    intro v hv
    obtain ⟨u, rfl, hu⟩ := hsub v hv
    exact List.mem_map_of_mem some hu
  have hsp : c.foundUrls.elems.Subperm (c.targetUrls.elems.map some) :=
    List.subperm_of_subset c.foundUrls.nodup hsub'
  have hsize : c.foundUrls.size = c.targetUrls.size ↔
      ∀ t ∈ c.targetUrls.elems, some t ∈ c.foundUrls.elems := by
    constructor
    · intro hlen t ht
      have hperm : c.foundUrls.elems.Perm (c.targetUrls.elems.map some) :=
        hsp.perm_of_length_le (by simp [JSSet.size] at hlen; simp [hlen])
      exact hperm.mem_iff.2 (List.mem_map_of_mem some ht)
    · intro hall
      have hsub2 : c.targetUrls.elems.map some ⊆ c.foundUrls.elems := by
        intro v hv
        obtain ⟨t, ht, rfl⟩ := List.mem_map.mp hv
        exact hall t ht
      have h1 := (List.subperm_of_subset hnd hsub2).length_le
      have h2 := hsp.length_le
      simp only [List.length_map] at h1 h2
      exact Nat.le_antisymm h2 h1
  refine ⟨?_, ?_⟩
  · rw [← hsize]
    simp [allTargetsFound]
  · rw [hsize]
    constructor
    · intro hall v
      constructor
      · intro hv
        obtain ⟨u, rfl, hu⟩ := hsub v hv
        exact ⟨u, hu, rfl⟩
      · rintro ⟨t, ht, rfl⟩
        exact hall t ht
    · intro h t ht
      exact (h (some t)).2 ⟨t, ht, rfl⟩

/-- C9 at the end of the one-target scenario: the hypothesis holds there, the
predicate is true and the single target is found. -/
theorem allTargetsFound_iff_every_target_found_witness :
    (oneTargetRun.crawler.allTargetsFound = true ↔
      ∀ t ∈ oneTargetRun.crawler.targetUrls.elems,
        some t ∈ oneTargetRun.crawler.foundUrls.elems) ∧
    oneTargetRun.crawler.allTargetsFound = true :=
  ⟨(allTargetsFound_iff_every_target_found oneTargetRun.crawler (by
      have hf : oneTargetRun.crawler.foundUrls.elems = [some "https://example.com/a"] := by
        decide
      have ht : oneTargetRun.crawler.targetUrls.elems = ["https://example.com/a"] := by
        decide
      intro v hv
      rw [hf, List.mem_singleton] at hv
      exact ⟨"https://example.com/a", hv, by rw [ht]; exact List.mem_singleton_self _⟩)).1,
    by decide⟩

/-! ### C7: saving and loading the state -/

/-- C7. The state that `saveState` writes for a crawler `c`, read back by
`loadState` into a new crawler with the same `baseUrl` (and states directory, hence
the same state file), gives `visitedUrls` with the same members (in the same
order), the same `queue` and the same `results`. -/
theorem loadState_saveState_roundtrip (c : WebsiteCrawler) (config : Config)
    (files : String → Option SavedState) (hbase : config.baseUrl = c.baseUrl)
    (hdir : config.statesDir.getD "./states" = c.statesDir) :
    (∀ u, (loadState (c.saveState files) (constructor config)).visitedUrls.has u
      = c.visitedUrls.has u) ∧
    (loadState (c.saveState files) (constructor config)).visitedUrls.toArray
      = c.visitedUrls.toArray ∧
    (loadState (c.saveState files) (constructor config)).queue = c.queue ∧
    (loadState (c.saveState files) (constructor config)).results = c.results := by
  have hname : (constructor config).getStateFileName = c.getStateFileName := by
    simp only [getStateFileName, constructor, hbase, hdir]
  have hfile : (c.saveState files) (constructor config).getStateFileName = some c.stateObject := by
    simp [saveState, hname]
  rw [loadState_of_some hfile]
  simp [stateObject, JSSet.ofArray_toArray]

/-- C7 at the interrupted run on example.com: the restored queue holds the two
links of the seed page. -/
theorem loadState_saveState_roundtrip_witness :
    (loadState (interruptedRun.crawler.saveState fun _ => none)
        (constructor (exampleConfig none))).queue
      = [{ url := "https://example.com/a", depth := 1 },
         { url := "https://example.com/b", depth := 1 }] :=
  (loadState_saveState_roundtrip interruptedRun.crawler (exampleConfig none)
    (fun _ => none) (by decide) (by decide)).2.2.1.trans (by decide)

/-! ### C8: a failed fetch -/

/-- C8. When a call `crawlPage(url, depth)` reaches the fetch of `n` and the fetch
throws or answers with a response that is not ok, the call returns without an
exception and the crawler is the one before the call with `n` added to
`visitedUrls`: `queue`, `foundUrls` and `results` are unchanged.  The same holds
when the call runs among others: the step at which its fetch settles changes
nothing of the crawler. -/
theorem crawlPage_failed_fetch (env : Env) (url : String) (depth : Int) (c c1 : WebsiteCrawler)
    (n : String) (r : FetchResult) (saveOk : Bool)
    (hreach : crawlPageEnter env url depth c = (c1, some n))
    (hfail : r = .rejected ∨ r = .notOk) :
    crawlPage env url depth r saveOk c
      = ({ c with visitedUrls := c.visitedUrls.add n }, none) ∧
    normalizeUrl env url = some n ∧
    (crawlPage env url depth r saveOk c).1.queue = c.queue ∧
    (crawlPage env url depth r saveOk c).1.foundUrls = c.foundUrls ∧
    (crawlPage env url depth r saveOk c).1.results = c.results ∧
    ∀ (run : Run) (i : Nat), (fetchSettled env run i r).crawler = run.crawler := by
  have hc1 : c1 = { c with visitedUrls := c.visitedUrls.add n } ∧
      normalizeUrl env url = some n := by
    rcases crawlPageEnter_cases env url depth c with h | ⟨m, hm, _, _, _, _, h⟩
    · rw [h] at hreach
      cases hreach
    · rw [h] at hreach
      cases hreach
      exact ⟨rfl, hm⟩
  have hcall : crawlPage env url depth r saveOk c
      = ({ c with visitedUrls := c.visitedUrls.add n }, none) := by
    unfold crawlPage
    rw [hreach]
    rcases hfail with rfl | rfl <;> simp [crawlPageTry, hc1.1]
  refine ⟨hcall, hc1.2, by rw [hcall], by rw [hcall], by rw [hcall], ?_⟩
  intro run i
  unfold fetchSettled
  rcases hfail with rfl | rfl <;> split <;> rfl

/-- C8 at the seed page of example.com answering with an error status. -/
theorem crawlPage_failed_fetch_witness :
    (crawlPage oneTargetEnv "https://example.com/" 0 .notOk true
        oneTargetStart).1.visitedUrls.elems = ["https://example.com/"] ∧
    (crawlPage oneTargetEnv "https://example.com/" 0 .notOk true oneTargetStart).1.results
      = oneTargetStart.results :=
  ⟨by decide,
    (crawlPage_failed_fetch oneTargetEnv "https://example.com/" 0 oneTargetStart
      (crawlPageEnter oneTargetEnv "https://example.com/" 0 oneTargetStart).1
      "https://example.com/" .notOk true
      (Prod.ext rfl (by decide)) (Or.inr rfl)).2.2.2.2.1⟩

end LinkCrawl

namespace LinkCrawl

open WebsiteCrawler

/-! ### C3: no URL is fetched twice -/

/-- C3. (1) A call `crawlPage(url, depth)` whose normalised URL is already in
`visitedUrls` fetches nothing and leaves the crawler as it is.  (2) A call that
reaches its fetch has put the URL, which was not there before, into `visitedUrls`.
(3) Over any run of `start`, the URLs passed to `fetch` are pairwise different,
all in `visitedUrls`, and none of them is in the `visitedUrls` array of the state
file that was restored.  (4) So it is after `processQueue`, whatever the pages
hold and however long it runs. -/
theorem fetch_at_most_once :
    (∀ (env : Env) (url : String) (depth : Int) (c : WebsiteCrawler) (n : String),
      normalizeUrl env url = some n → c.visitedUrls.has n = true →
      crawlPageEnter env url depth c = (c, none) ∧
      ∀ r saveOk, crawlPage env url depth r saveOk c = (c, none)) ∧
    (∀ (env : Env) (url : String) (depth : Int) (c c1 : WebsiteCrawler) (n : String),
      crawlPageEnter env url depth c = (c1, some n) →
      c.visitedUrls.has n = false ∧ c1.visitedUrls.has n = true) ∧
    (∀ (env : Env) (config : Config) (events : List Event),
      (runEvents env events (start env config)).fetched.Nodup ∧
      (∀ u ∈ (runEvents env events (start env config)).fetched,
        (runEvents env events (start env config)).crawler.visitedUrls.has u = true) ∧
      (∀ u ∈ (runEvents env events (start env config)).fetched,
        u ∉ restoredVisited env config)) ∧
    (∀ (env : Env) (config : Config) (fetch : String → FetchResult)
        (saveOk : String → Bool) (fuel : Nat),
      (processQueue env fetch saveOk fuel (start env config)).fetched.Nodup ∧
      (∀ u ∈ (processQueue env fetch saveOk fuel (start env config)).fetched,
        u ∉ restoredVisited env config)) := by
  have hrun : ∀ (env : Env) (config : Config) (events : List Event),
      FetchedOnce (restoredVisited env config) (runEvents env events (start env config)) :=
    fun env config events =>
      runEvents_induction env (FetchedOnce (restoredVisited env config))
        (fun run ev h => step_fetchedOnce env _ run ev h) events _ (start_fetchedOnce env config)
  refine ⟨?_, ?_, ?_, ?_⟩
  · intro env url depth c n hn hv
    have henter := crawlPageEnter_of_visited depth hn ((JSSet.has_iff _ _).1 hv)
    refine ⟨henter, fun r saveOk => ?_⟩
    unfold crawlPage
    rw [henter]
  · intro env url depth c c1 n hreach
    rcases crawlPageEnter_cases env url depth c with h | ⟨m, _, _, _, _, hnot, h⟩
    · rw [h] at hreach
      cases hreach
    · rw [h] at hreach
      cases hreach
      exact ⟨(JSSet.has_false_iff _ _).2 hnot, (JSSet.has_iff _ _).2 (JSSet.mem_add_self _ _)⟩
  · intro env config events
    obtain ⟨h1, h2, h3, _⟩ := hrun env config events
    exact ⟨h1, fun u hu => (JSSet.has_iff _ _).2 (h2 u hu), h3⟩
  · intro env config fetch saveOk fuel
    obtain ⟨events, h⟩ := processQueue_eq_runEvents env fetch saveOk fuel (start env config)
    rw [h]
    obtain ⟨h1, _, h3, _⟩ := hrun env config events
    exact ⟨h1, h3⟩

/-- C3 at the resumed run on example.com: `/a` and `/b` are fetched, the restored
seed page is not. -/
theorem fetch_at_most_once_witness :
    resumedRun.fetched = ["https://example.com/a", "https://example.com/b"] ∧
    restoredVisited resumeEnv (exampleConfig none) = ["https://example.com/"] ∧
    resumedRun.fetched.Nodup ∧
    ∀ u ∈ resumedRun.fetched, u ∉ restoredVisited resumeEnv (exampleConfig none) :=
  ⟨by decide, by decide,
    (fetch_at_most_once.2.2.1 resumeEnv (exampleConfig none)
      [.nextBatch, .fetchSettled 1 (.page [some "/a"])]).1,
    (fetch_at_most_once.2.2.1 resumeEnv (exampleConfig none)
      [.nextBatch, .fetchSettled 1 (.page [some "/a"])]).2.2⟩

/-! ### C5: the depth of the queue's entries -/

end LinkCrawl

namespace LinkCrawl

open WebsiteCrawler

/-! ### C10: when an entry is marked visited -/

/-- C10, as the code has it. (1) A call `crawlPage(url, depth)` with
`depth ≤ maxDepth`, entered while not all targets are found, whose URL normalises
to `u`, leaves `u` in `visitedUrls`, whatever the fetch gives.  (2) A call with
`depth > maxDepth`, or entered when all targets are found, returns before the
visited check and leaves the crawler, `visitedUrls` included, as it is.  (3) When
`processQueue` draws a batch, the normalised URL of every entry of the batch that
is not deeper than `maxDepth` is in `visitedUrls` afterwards.  (4) No step of a run
removes an element from `visitedUrls`. -/
theorem visited_marked_after_depth_and_found_checks :
    (∀ (env : Env) (url : String) (depth : Int) (r : FetchResult) (saveOk : Bool)
        (c : WebsiteCrawler) (u : String),
      normalizeUrl env url = some u → u ≠ "" → depth ≤ c.maxDepth →
      c.allTargetsFound = false →
      (crawlPage env url depth r saveOk c).1.visitedUrls.has u = true) ∧
    (∀ (env : Env) (url : String) (depth : Int) (r : FetchResult) (saveOk : Bool)
        (c : WebsiteCrawler),
      depth > c.maxDepth ∨ c.allTargetsFound = true →
      crawlPage env url depth r saveOk c = (c, none)) ∧
    (∀ (env : Env) (run : Run) (e : FrontierEntry) (u : String),
      run.pending.all (fun p => !p.inBatch) = true → run.crawler.allTargetsFound = false →
      e ∈ run.crawler.queue.take run.crawler.maxConcurrent.toNat →
      e.depth ≤ run.crawler.maxDepth → normalizeUrl env e.url = some u → u ≠ "" →
      (nextBatch env run).crawler.visitedUrls.has u = true) ∧
    (∀ (env : Env) (run : Run) (ev : Event) (u : String),
      run.crawler.visitedUrls.has u = true →
      (step env run ev).crawler.visitedUrls.has u = true) := by
  refine ⟨?_, ?_, ?_, ?_⟩
  · intro env url depth r saveOk c u hn hne hd hf
    rw [JSSet.has_iff, crawlPage_visitedUrls]
    exact crawlPageEnter_marks hn hne hd hf
  · intro env url depth r saveOk c h
    unfold crawlPage
    rw [crawlPageEnter_of_skip h]
  · intro env run e u hp hf he hd hn hne
    rw [JSSet.has_iff]
    have hq : run.crawler.queue ≠ [] := by
      intro h0
      rw [h0] at he
      simp at he
    have hcond : (run.pending.all (fun p => !p.inBatch) && decide (run.crawler.queue.length > 0)
        && !run.crawler.allTargetsFound) = true := by
      simp [hp, hf, List.length_pos, hq]
    unfold nextBatch
    rw [if_pos hcond]
    exact foldl_startCall_marks env true
      (run.crawler.queue.take run.crawler.maxConcurrent.toNat)
      { run with
        crawler :=
          { run.crawler with
            queue := run.crawler.queue.drop run.crawler.maxConcurrent.toNat } }
      hf e he u hn hne hd
  · intro env run ev u hu
    rw [JSSet.has_iff] at hu ⊢
    exact step_visited_mono env run ev u hu

/-- C10 at the seed page of a first run on example.com: crawled at depth 0, it is
in `visitedUrls` afterwards although its fetch fails. -/
theorem visited_marked_after_depth_and_found_checks_witness :
    (crawlPage oneTargetEnv "https://example.com/" 0 .rejected true
      oneTargetStart).1.visitedUrls.has "https://example.com/" = true :=
  visited_marked_after_depth_and_found_checks.1 oneTargetEnv "https://example.com/" 0
    .rejected true oneTargetStart "https://example.com/"
    (by decide) (by decide) (by decide) (by decide)

/-- C10 as stated fails. With the default `maxDepth` of 3, `crawlPage` called for
`/b` at depth 4 returns at line 148 and `/b`, not visited before, is not in
`visitedUrls` afterwards; and once all targets are found (the end of the
one-target scenario) `crawlPage` called for `/b` at depth 1 returns at line 153
and `/b` is not in `visitedUrls` afterwards either. -/
theorem skipped_entry_not_marked_visited :
    normalizeUrl oneTargetEnv "https://example.com/b" = some "https://example.com/b" ∧
    oneTargetStart.maxDepth = 3 ∧
    oneTargetStart.visitedUrls.has "https://example.com/b" = false ∧
    (crawlPage oneTargetEnv "https://example.com/b" 4 (.page []) true
      oneTargetStart).1.visitedUrls.has "https://example.com/b" = false ∧
    oneTargetRun.crawler.allTargetsFound = true ∧
    oneTargetRun.crawler.visitedUrls.has "https://example.com/b" = false ∧
    (crawlPage oneTargetEnv "https://example.com/b" 1 (.page []) true
      oneTargetRun.crawler).1.visitedUrls.has "https://example.com/b" = false := by
  decide

/-! ### C4: what is put into the queue -/

/-- C4, as the code has it. Every entry that a call of `crawlPage` appends to the
queue is at depth `depth + 1` and has a URL that, when it is appended, is on the
hostname of `baseUrl`, is allowed by the robots policy and is not in
`visitedUrls`; a call only appends.  In a run, every step either takes entries off
the head of the queue or appends entries of that kind. -/
theorem crawlPage_enqueues_checked_links :
    (∀ (env : Env) (url : String) (depth : Int) (r : FetchResult) (saveOk : Bool)
        (c : WebsiteCrawler),
      ∃ added : List FrontierEntry,
        (crawlPage env url depth r saveOk c).1.queue = c.queue ++ added ∧
        ∀ e ∈ added,
          (crawlPage env url depth r saveOk c).1.isSameDomain env e.url = true ∧
          (crawlPage env url depth r saveOk c).1.isAllowedToCrawl e.url = some true ∧
          (crawlPage env url depth r saveOk c).1.visitedUrls.has e.url = false ∧
          e.depth = depth + 1) ∧
    (∀ (env : Env) (run : Run) (ev : Event),
      (∃ k, (step env run ev).crawler.queue = run.crawler.queue.drop k) ∨
      ∃ added : List FrontierEntry,
        (step env run ev).crawler.queue = run.crawler.queue ++ added ∧
        ∀ e ∈ added,
          (step env run ev).crawler.isSameDomain env e.url = true ∧
          (step env run ev).crawler.isAllowedToCrawl e.url = some true ∧
          (step env run ev).crawler.visitedUrls.has e.url = false) := by
  refine ⟨?_, ?_⟩
  · intro env url depth r saveOk c
    rcases crawlPage_cases env url depth r saveOk c with h | ⟨n, _, _, _, _, _, _, he⟩
    · exact ⟨[], by rw [h]; simp, by simp⟩
    · exact he.enqueued
  · intro env run ev
    cases ev with
    | nextBatch =>
      obtain ⟨V, k, _, hc⟩ := nextBatch_crawler env run
      exact Or.inl ⟨k, by simp only [step, hc]⟩
    | call url depth =>
      obtain ⟨V, _, hc⟩ := startCall_crawler env false run { url := url, depth := depth }
      exact Or.inl ⟨0, by simp only [step, hc, List.drop_zero]⟩
    | fetchSettled i r =>
      obtain ⟨_, n, depth, he⟩ := fetchSettled_effect env run i r
      obtain ⟨added, hq, hprop⟩ := he.enqueued
      exact Or.inr ⟨added, hq, fun e hmem => ⟨(hprop e hmem).1, (hprop e hmem).2.1,
        (hprop e hmem).2.2.1⟩⟩
    | saveSettled i saveOk =>
      obtain ⟨_, n, depth, he⟩ := saveSettled_effect env run i saveOk
      obtain ⟨added, hq, hprop⟩ := he.enqueued
      exact Or.inr ⟨added, hq, fun e hmem => ⟨(hprop e hmem).1, (hprop e hmem).2.1,
        (hprop e hmem).2.2.1⟩⟩

/-- C4 under a robots.txt that disallows `/private/`: the seed page links to
`/private/page`, itself a target, and to `/b`; only `/b` is put into the queue. -/
theorem crawlPage_enqueues_checked_links_witness :
    privateStart.queue = [{ url := "https://example.com/", depth := 0 }] ∧
    privateStart.isAllowedToCrawl "https://example.com/private/page" = some false ∧
    (crawlPage privateEnv "https://example.com/" 0
      (.page [some "/private/page", some "/b"]) true privateStart).1.queue
      = [{ url := "https://example.com/", depth := 0 },
         { url := "https://example.com/b", depth := 1 }] ∧
    ∃ added : List FrontierEntry,
      (crawlPage privateEnv "https://example.com/" 0
        (.page [some "/private/page", some "/b"]) true privateStart).1.queue
        = privateStart.queue ++ added ∧
      ∀ e ∈ added,
        (crawlPage privateEnv "https://example.com/" 0
          (.page [some "/private/page", some "/b"]) true
          privateStart).1.isSameDomain privateEnv e.url = true ∧
        (crawlPage privateEnv "https://example.com/" 0
          (.page [some "/private/page", some "/b"]) true
          privateStart).1.isAllowedToCrawl e.url = some true ∧
        (crawlPage privateEnv "https://example.com/" 0
          (.page [some "/private/page", some "/b"]) true
          privateStart).1.visitedUrls.has e.url = false ∧
        e.depth = 0 + 1 :=
  ⟨by decide, by decide, by decide,
    crawlPage_enqueues_checked_links.1 privateEnv "https://example.com/" 0
      (.page [some "/private/page", some "/b"]) true privateStart⟩

/-- C4 as stated fails for the seed. Under a robots.txt that disallows every path
and with the state file of a finished crawl (base URL visited, queue empty),
`start` puts the base URL into the queue although `isAllowedToCrawl` is false for
it and it is in `visitedUrls`. -/
theorem seed_enqueued_without_checks :
    closedStart.queue = [{ url := "https://example.com/", depth := 0 }] ∧
    closedStart.isAllowedToCrawl "https://example.com/" = some false ∧
    closedStart.visitedUrls.has "https://example.com/" = true := by
  decide

/-! ### C1: a target is recorded once -/

/-- C1 fails on a resumed run. The first run (targets `/a` and `/c`) finds `/a` on
the seed page and saves its state; the second run restores `results` but starts
with an empty `foundUrls`, so when the page `/b` links to `/a` the target `/a` is
recorded a second time. -/
theorem resumed_run_records_target_twice :
    interruptedRun.crawler.stateObject.results
      = [{ targetUrl := some "https://example.com/a", foundOn := "https://example.com/" }] ∧
    (start resumeEnv (exampleConfig none)).crawler.foundUrls.elems = [] ∧
    resumedRun.crawler.results
      = [{ targetUrl := some "https://example.com/a", foundOn := "https://example.com/" },
         { targetUrl := some "https://example.com/a", foundOn := "https://example.com/b" }] ∧
    ¬ (resumedRun.crawler.results.map MatchRecord.targetUrl).Nodup := by
  decide

/-- In a run of `start` that finds no state file, the `targetUrl` fields of
`results` are, in order, the elements of `foundUrls`; so no target is recorded
twice. -/
theorem results_nodup_of_fresh_start (env : Env) (config : Config) (events : List Event)
    (hfresh : env.files (constructor config).getStateFileName = none) :
    ((runEvents env events (start env config)).crawler.results.map
      MatchRecord.targetUrl).Nodup := by
  have h0 : ResultsTracked (start env config).crawler := by
    unfold ResultsTracked
    rw [(start_fresh env config hfresh).2, start_foundUrls]
    rfl
  have h := runEvents_induction env (fun run => ResultsTracked run.crawler)
    (fun run ev h => step_resultsTracked env run ev h) events _ h0
  unfold ResultsTracked at h
  rw [h]
  exact JSSet.nodup _

/-- The first run on example.com, which finds no state file, records `/a` once. -/
theorem results_nodup_of_fresh_start_witness :
    (interruptedRun.crawler.results.map MatchRecord.targetUrl).Nodup :=
  results_nodup_of_fresh_start (freshEnv ["https://example.com/a", "https://example.com/c"])
    (exampleConfig none)
    [.nextBatch, .fetchSettled 0 (.page [some "/a", some "/b"]), .saveSettled 0 true]
    (by decide)

end LinkCrawl
